import Mathlib

/-!
Shallow embedding of `src/simulation_app.py`, an educational chromatogram
simulator.  The script parses three parallel lists (compound names, boiling
points, ionization efficiencies), chooses between two instrument modes
("Integrated System" = enhanced, "Traditional GC-MS" = plain), synthesizes
two additive-Gaussian signal channels on a 1200-sample time axis, builds a
per-compound peak table with rounded quantities, and annotates each record
after the first with a resolution metric against its predecessor.

Python floats are modelled by exact rationals (`ℚ`); the Gaussian signal,
which needs `exp`, lives over `ℝ`.  Python scalar division, which raises
`ZeroDivisionError` on a zero denominator, is modelled by `pydiv` returning
`Except`; the unconditional `peak_table[0][...] = None` assignment at line
146, which raises `IndexError` on an empty table, is modelled in `annotate`.
`round(x, n)` (banker's rounding) is modelled exactly on `ℚ` by `pyRound`.
-/

namespace SimApp

/-- The `st.radio` system selection (line 23): "Integrated System (Your
Device)" or "Traditional GC-MS". -/
inductive SystemChoice
  | integrated
  | traditional
deriving DecidableEq, Repr

/-- Instrument parameters captured by the sliders (lines 62-79).  In
traditional mode the script never reads `prep_temp`, `prep_pressure`, or
`hot_channel_temp`; they are carried here uniformly. -/
structure Params where
  choice : SystemChoice
  prep_temp : ℚ
  prep_pressure : ℚ
  hot_channel_temp : ℚ
  column_rate : ℚ
deriving DecidableEq, Repr

/-- Failure modes of a run.  `validationError` is the typed name for the
`st.error` + `st.stop` halt at lines 53-55; `zeroDivisionError` and
`indexError` are Python's arithmetic and indexing faults. -/
inductive Err
  | validationError
  | zeroDivisionError
  | indexError
deriving DecidableEq, Repr

/-- Python scalar true division: raises `ZeroDivisionError` on a zero
denominator, otherwise exact division. -/
def pydiv (a b : ℚ) : Except Err ℚ :=
  if b = 0 then .error .zeroDivisionError else .ok (a / b)

/-- Line 75: `hot_factor = 1 + (hot_channel_temp - 150)/400 + (column_rate/50)*0.1`.
The two divisions are by nonzero constants, hence infallible. -/
def hot_factor (p : Params) : ℚ :=
  1 + (p.hot_channel_temp - 150) / 400 + (p.column_rate / 50) * 0.1

/-- One parsed analyte: name, boiling point (°C), ionization efficiency as a
fraction (the script divides the entered percentage by 100 at line 51). -/
structure Compound where
  name : String
  boiling_point : ℚ
  ion_eff : ℚ
deriving DecidableEq, Repr

/-- Zips the three parsed input lists into compounds; the script indexes the
three lists in lockstep after the length check. -/
def buildCompounds : List String → List ℚ → List ℚ → List Compound
  | n :: ns, b :: bs, e :: es => ⟨n, b, e⟩ :: buildCompounds ns bs es
  | _, _, _ => []

/-- The unrounded per-compound quantities produced by one iteration of the
simulation loop (lines 102-126). -/
structure PeakCalc where
  name : String
  center : ℚ
  width_column : ℚ
  intensity_ion : ℚ
  intensity_neutral : ℚ
deriving DecidableEq, Repr

/-- Rounds a rational to the nearest integer with ties to even, as Python's
`round` does (idealizing the binary floats as exact values). -/
def roundHalfEven (q : ℚ) : ℤ :=
  if q - ⌊q⌋ < 1/2 then ⌊q⌋
  else if 1/2 < q - ⌊q⌋ then ⌊q⌋ + 1
  else if ⌊q⌋ % 2 = 0 then ⌊q⌋ else ⌊q⌋ + 1

/-- Python's `round(q, ndigits)` on exact rationals. -/
def pyRound (ndigits : ℕ) (q : ℚ) : ℚ :=
  (roundHalfEven (q * 10 ^ ndigits) : ℚ) / 10 ^ ndigits

/-- The body of the simulation loop for index `i` (lines 102-119): retention
center (line 105), base width (line 109, with the fallible `10/column_rate`),
then the mode branch (lines 111-119).  In integrated mode the width is divided
by `hot_factor` (fallible) and both intensities are scaled by it. -/
def compute_peak (p : Params) (i : ℕ) (c : Compound) : Except Err PeakCalc :=
  let center : ℚ := 2 + (i : ℚ) * 2 + c.boiling_point / 100
  match pydiv 10 p.column_rate with
  | .error e => .error e
  | .ok q10 =>
    let width : ℚ := 0.15 + c.boiling_point / 500 + q10 * 0.02
    match p.choice with
    | .integrated =>
      match pydiv width (hot_factor p) with
      | .error e => .error e
      | .ok width_column =>
        .ok ⟨c.name, center, width_column,
             c.ion_eff * hot_factor p, (1 - c.ion_eff) * hot_factor p⟩
    | .traditional =>
      .ok ⟨c.name, center, width, c.ion_eff, 0⟩

/-- The simulation loop `for i in range(n_compounds)` (line 102), threading
the running index; the first raised error aborts the script. -/
def simLoop (p : Params) : ℕ → List Compound → Except Err (List PeakCalc)
  | _, [] => .ok []
  | i, c :: cs =>
    match compute_peak p i c with
    | .error e => .error e
    | .ok pc =>
      match simLoop p (i + 1) cs with
      | .error e => .error e
      | .ok rest => .ok (pc :: rest)

/-- One Gaussian contribution (lines 122-123):
`intensity * exp(-((t - center)^2) / (2 * width_column^2))`.  The array
division is numpy, which does not raise; over `ℝ` a zero width makes the
quotient `0` by convention. -/
noncomputable def gaussAt (intensity center width : ℚ) (t : ℝ) : ℝ :=
  (intensity : ℝ) * Real.exp (-((t - (center : ℝ)) ^ 2) / (2 * (width : ℝ) ^ 2))

/-- The accumulated ionic channel `y_column_ion` (lines 89, 125): starts at
zero and adds each compound's Gaussian contribution in loop order. -/
noncomputable def channelIon (pcs : List PeakCalc) (t : ℝ) : ℝ :=
  pcs.foldl (fun acc pc => acc + gaussAt pc.intensity_ion pc.center pc.width_column t) 0

/-- The accumulated neutral channel `y_column_neutral` (lines 90, 126). -/
noncomputable def channelNeutral (pcs : List PeakCalc) (t : ℝ) : ℝ :=
  pcs.foldl (fun acc pc => acc + gaussAt pc.intensity_neutral pc.center pc.width_column t) 0

/-- One row of `peak_table` (lines 128-134, annotated at 139-146).
`resolution_vs_previous` is absent (`none`) until the resolution loop sets it. -/
structure PeakRecord where
  compound : String
  retention_time : ℚ
  peak_width : ℚ
  ionic_intensity : ℚ
  neutral_intensity : ℚ
  resolution_vs_previous : Option ℚ
deriving DecidableEq, Repr

/-- Lines 128-134: the appended row, with the script's roundings. -/
def buildRecord (pc : PeakCalc) : PeakRecord :=
  ⟨pc.name, pyRound 2 pc.center, pyRound 3 pc.width_column,
   pyRound 3 pc.intensity_ion, pyRound 3 pc.intensity_neutral, none⟩

/-- Lines 96-97: `2 * abs(t2 - t1) / (w1 + w2)`, with Python's fallible
scalar division. -/
def resolution (t1 w1 t2 w2 : ℚ) : Except Err ℚ :=
  pydiv (2 * |t2 - t1|) (w1 + w2)

/-- The resolution loop (lines 139-144): each record after the first gets
`resolution_vs_previous` computed from the previous record's (already
rounded) retention time and width. -/
def annotatePairs : PeakRecord → List PeakRecord → Except Err (List PeakRecord)
  | _, [] => .ok []
  | prev, r :: rs =>
    match resolution prev.retention_time prev.peak_width r.retention_time r.peak_width with
    | .error e => .error e
    | .ok v =>
      let r' : PeakRecord := { r with resolution_vs_previous := some (pyRound 2 v) }
      match annotatePairs r' rs with
      | .error e => .error e
      | .ok rest => .ok (r' :: rest)

/-- Lines 139-146: run the resolution loop, then unconditionally assign
`peak_table[0]["Resolution vs Previous"] = None` — on an empty table this
indexing raises `IndexError`. -/
def annotate : List PeakRecord → Except Err (List PeakRecord)
  | [] => .error .indexError
  | r :: rs =>
    match annotatePairs r rs with
    | .error e => .error e
    | .ok rest => .ok ({ r with resolution_vs_previous := none } :: rest)

/-- Line 84: `x = np.linspace(0, 20, 1200)` has 1200 samples. -/
def numSamples : ℕ := 1200

/-- The k-th sample of `np.linspace(0, 20, 1200)`: `20 * k / 1199`. -/
noncomputable def tAxis (k : Fin numSamples) : ℝ := 20 * (k : ℝ) / 1199

/-- The artifacts a completed run leaves behind: the two channels sampled on
the time axis, and the annotated peak table. -/
structure SimResult where
  ionic : Fin numSamples → ℝ
  neutral : Fin numSamples → ℝ
  peaks : List PeakRecord

/-- The whole pipeline on already-parsed inputs: the length check (lines
53-55, halting before any synthesis on mismatch), the simulation loop, and
the resolution annotation. -/
noncomputable def simulate (p : Params) (names : List String) (bps ions : List ℚ) :
    Except Err SimResult :=
  if names.length = bps.length ∧ bps.length = ions.length then
    match simLoop p 0 (buildCompounds names bps ions) with
    | .error e => .error e
    | .ok pcs =>
      match annotate (pcs.map buildRecord) with
      | .error e => .error e
      | .ok recs =>
        .ok ⟨fun k => channelIon pcs (tAxis k), fun k => channelNeutral pcs (tAxis k), recs⟩
  else .error .validationError

/-- The peak-table component of a run. -/
noncomputable def runPeaks (p : Params) (names : List String) (bps ions : List ℚ) :
    Except Err (List PeakRecord) :=
  (simulate p names bps ions).map SimResult.peaks

/-- Traditional GC-MS mode at the default slider positions (prep and hot
channel values are never read in this mode; the defaults 150, 101.3, 250 are
carried for uniformity), column heating rate 5 °C/min. -/
def pTrad5 : Params := ⟨.traditional, 150, 101.3, 250, 5⟩

/-- Integrated mode at the default slider positions: prep oven 150 °C /
101.3 kPa, hot channel 250 °C, column heating rate 5 °C/min. -/
def pInteg250 : Params := ⟨.integrated, 150, 101.3, 250, 5⟩

/-- The app's default compound names. -/
def defaultNames : List String := ["Acetone", "Methanol", "Ethanol"]

/-- The app's default boiling points. -/
def defaultBps : List ℚ := [56, 65, 78]

/-- The app's default ionization efficiencies 70 %, 60 %, 65 % as fractions. -/
def defaultIons : List ℚ := [7/10, 3/5, 13/20]

/-- The unrounded per-compound quantities of the default traditional run:
centers 2.56, 4.65, 6.78 and widths 0.302, 0.32, 0.346. -/
def defaultCalcs : List PeakCalc :=
  [⟨"Acetone", 64/25, 151/500, 7/10, 0⟩,
   ⟨"Methanol", 93/20, 8/25, 3/5, 0⟩,
   ⟨"Ethanol", 339/50, 173/500, 13/20, 0⟩]

/-- The peak table of the default traditional run before the resolution
loop. -/
def defaultRecords0 : List PeakRecord :=
  [⟨"Acetone", 64/25, 151/500, 7/10, 0, none⟩,
   ⟨"Methanol", 93/20, 8/25, 3/5, 0, none⟩,
   ⟨"Ethanol", 339/50, 173/500, 13/20, 0, none⟩]

/-- The annotated peak table of the default traditional run: resolutions
6.72 (= 168/25) and 6.4 (= 32/5). -/
def defaultRecords : List PeakRecord :=
  [⟨"Acetone", 64/25, 151/500, 7/10, 0, none⟩,
   ⟨"Methanol", 93/20, 8/25, 3/5, 0, some (168/25)⟩,
   ⟨"Ethanol", 339/50, 173/500, 13/20, 0, some (32/5)⟩]

/-- The Acetone peak quantities of the enhanced default run: width
0.302/1.26 = 151/630, ionic intensity 0.882, neutral intensity 0.378. -/
def acetoneCalc250 : PeakCalc := ⟨"Acetone", 64/25, 151/630, 441/500, 189/500⟩

/-- The default first compound. -/
def acetone : Compound := ⟨"Acetone", 56, 7/10⟩

/-- The Acetone peak quantities of the traditional default run. -/
def acetoneCalcPlain : PeakCalc := ⟨"Acetone", 64/25, 151/500, 7/10, 0⟩

/-- The first sample of the time axis. -/
def k0 : Fin numSamples := ⟨0, by norm_num [numSamples]⟩

end SimApp

/-! ## Evaluation and inversion lemmas for the embedded operations -/

namespace SimApp

theorem pydiv_ne (a b : ℚ) (h : b ≠ 0) : pydiv a b = .ok (a / b) := by
  simp [pydiv, h]

theorem pydiv_zero (a : ℚ) : pydiv a 0 = .error .zeroDivisionError := by
  simp [pydiv]

theorem pydiv_ok (a b v : ℚ) (h : pydiv a b = .ok v) : b ≠ 0 ∧ v = a / b := by
  by_cases hb : b = 0
  · simp [pydiv, hb] at h
  · simp [pydiv, hb] at h
    exact ⟨hb, h.symm⟩

theorem roundHalfEven_low (q : ℚ) (m : ℤ) (h1 : (m : ℚ) ≤ q) (h2 : q < (m : ℚ) + 1/2) :
    roundHalfEven q = m := by
  have hf : ⌊q⌋ = m := Int.floor_eq_iff.mpr ⟨h1, by linarith⟩
  unfold roundHalfEven
  rw [hf, if_pos (by linarith)]

theorem roundHalfEven_high (q : ℚ) (m : ℤ) (h1 : (m : ℚ) + 1/2 < q) (h2 : q < (m : ℚ) + 1) :
    roundHalfEven q = m + 1 := by
  have hf : ⌊q⌋ = m := Int.floor_eq_iff.mpr ⟨by linarith, by linarith⟩
  unfold roundHalfEven
  rw [hf, if_neg (by linarith), if_pos (by linarith)]

theorem pyRound_low (n : ℕ) (q : ℚ) (m : ℤ) (h1 : (m : ℚ) ≤ q * 10 ^ n)
    (h2 : q * 10 ^ n < (m : ℚ) + 1/2) : pyRound n q = (m : ℚ) / 10 ^ n := by
  unfold pyRound
  rw [roundHalfEven_low _ m h1 h2]

theorem pyRound_high (n : ℕ) (q : ℚ) (m : ℤ) (h1 : (m : ℚ) + 1/2 < q * 10 ^ n)
    (h2 : q * 10 ^ n < (m : ℚ) + 1) : pyRound n q = ((m : ℚ) + 1) / 10 ^ n := by
  unfold pyRound
  rw [roundHalfEven_high _ m h1 h2]
  push_cast
  ring

theorem pyRound_zero (n : ℕ) : pyRound n 0 = 0 := by
  rw [pyRound_low n 0 0 (by norm_num) (by norm_num)]
  norm_num

theorem compute_peak_trad (p : Params) (i : ℕ) (c : Compound) (hc : p.choice = .traditional)
    (hr : p.column_rate ≠ 0) :
    compute_peak p i c = .ok ⟨c.name, 2 + (i : ℚ) * 2 + c.boiling_point / 100,
      0.15 + c.boiling_point / 500 + (10 / p.column_rate) * 0.02, c.ion_eff, 0⟩ := by
  unfold compute_peak
  rw [pydiv_ne _ _ hr, hc]

theorem compute_peak_integ (p : Params) (i : ℕ) (c : Compound) (hc : p.choice = .integrated)
    (hr : p.column_rate ≠ 0) (hh : hot_factor p ≠ 0) :
    compute_peak p i c = .ok ⟨c.name, 2 + (i : ℚ) * 2 + c.boiling_point / 100,
      (0.15 + c.boiling_point / 500 + (10 / p.column_rate) * 0.02) / hot_factor p,
      c.ion_eff * hot_factor p, (1 - c.ion_eff) * hot_factor p⟩ := by
  unfold compute_peak
  simp only [pydiv_ne _ _ hr, hc, pydiv_ne _ _ hh]

theorem compute_peak_ok (p : Params) (i : ℕ) (c : Compound) (pc : PeakCalc)
    (h : compute_peak p i c = .ok pc) :
    p.column_rate ≠ 0 ∧
    pc.name = c.name ∧
    pc.center = 2 + (i : ℚ) * 2 + c.boiling_point / 100 ∧
    (p.choice = .traditional →
      pc.width_column = 0.15 + c.boiling_point / 500 + (10 / p.column_rate) * 0.02 ∧
      pc.intensity_ion = c.ion_eff ∧ pc.intensity_neutral = 0) ∧
    (p.choice = .integrated →
      hot_factor p ≠ 0 ∧
      pc.width_column = (0.15 + c.boiling_point / 500 + (10 / p.column_rate) * 0.02) / hot_factor p ∧
      pc.intensity_ion = c.ion_eff * hot_factor p ∧
      pc.intensity_neutral = (1 - c.ion_eff) * hot_factor p) := by
  by_cases hr : p.column_rate = 0
  · rw [compute_peak] at h
    rw [hr, pydiv_zero] at h
    cases h
  · cases hc : p.choice with
    | traditional =>
      rw [compute_peak_trad p i c hc hr] at h
      simp only [Except.ok.injEq] at h
      subst h
      refine ⟨hr, rfl, rfl, fun _ => ⟨rfl, rfl, rfl⟩, ?_⟩
      intro hcontra
      cases hcontra
    | integrated =>
      by_cases hh : hot_factor p = 0
      · rw [compute_peak] at h
        simp only [pydiv_ne _ _ hr, hc, hh, pydiv_zero] at h
        cases h
      · rw [compute_peak_integ p i c hc hr hh] at h
        simp only [Except.ok.injEq] at h
        subst h
        refine ⟨hr, rfl, rfl, ?_, fun _ => ⟨hh, rfl, rfl, rfl⟩⟩
        intro hcontra
        cases hcontra

theorem simLoop_ok (p : Params) :
    ∀ (cs : List Compound) (i : ℕ) (pcs : List PeakCalc), simLoop p i cs = .ok pcs →
    pcs.length = cs.length ∧
    ∀ k (hk : k < cs.length) (hk' : k < pcs.length),
      compute_peak p (i + k) (cs.get ⟨k, hk⟩) = .ok (pcs.get ⟨k, hk'⟩) := by
  intro cs
  induction cs with
  | nil =>
    intro i pcs h
    rw [simLoop] at h
    simp only [Except.ok.injEq] at h
    subst h
    exact ⟨rfl, fun k hk => absurd hk (Nat.not_lt_zero k)⟩
  | cons c cs ih =>
    intro i pcs h
    rw [simLoop] at h
    cases hpc : compute_peak p i c with
    | error e => rw [hpc] at h; cases h
    | ok pc =>
      rw [hpc] at h
      cases hrest : simLoop p (i + 1) cs with
      | error e => rw [hrest] at h; cases h
      | ok rest =>
        rw [hrest] at h
        simp only [Except.ok.injEq] at h
        subst h
        obtain ⟨hlen, hget⟩ := ih (i + 1) rest hrest
        refine ⟨by simp [hlen], fun k hk hk' => ?_⟩
        cases k with
        | zero => simpa using hpc
        | succ k =>
          have hidx : i + (k + 1) = (i + 1) + k := by omega
          rw [hidx]
          simpa using hget k (by simpa using hk) (by simpa using hk')

theorem foldl_add_shift (f : PeakCalc → ℝ) :
    ∀ (l : List PeakCalc) (a : ℝ), l.foldl (fun acc pc => acc + f pc) a = a + (l.map f).sum := by
  intro l
  induction l with
  | nil => intro a; simp
  | cons x xs ih =>
    intro a
    simp only [List.foldl_cons, List.map_cons, List.sum_cons, ih (a + f x)]
    ring

theorem map_sum_get (f : PeakCalc → ℝ) :
    ∀ (l : List PeakCalc), (l.map f).sum = ∑ i : Fin l.length, f (l.get i) := by
  intro l
  induction l with
  | nil => simp
  | cons x xs ih =>
    simp only [List.map_cons, List.sum_cons, List.length_cons, Fin.sum_univ_succ,
      List.get_cons_zero, List.get_cons_succ, ih]
    rfl

theorem channelIon_eq_sum (pcs : List PeakCalc) (t : ℝ) :
    channelIon pcs t = ∑ i : Fin pcs.length,
      gaussAt (pcs.get i).intensity_ion (pcs.get i).center (pcs.get i).width_column t := by
  unfold channelIon
  rw [foldl_add_shift, zero_add, map_sum_get]

theorem channelNeutral_eq_sum (pcs : List PeakCalc) (t : ℝ) :
    channelNeutral pcs t = ∑ i : Fin pcs.length,
      gaussAt (pcs.get i).intensity_neutral (pcs.get i).center (pcs.get i).width_column t := by
  unfold channelNeutral
  rw [foldl_add_shift, zero_add, map_sum_get]

theorem annotatePairs_ok :
    ∀ (rs : List PeakRecord) (prev : PeakRecord) (out : List PeakRecord),
    annotatePairs prev rs = .ok out →
    out.length = rs.length ∧
    (∀ k (hk : k < out.length) (hk' : k < rs.length),
      (out.get ⟨k, hk⟩).compound = (rs.get ⟨k, hk'⟩).compound ∧
      (out.get ⟨k, hk⟩).retention_time = (rs.get ⟨k, hk'⟩).retention_time ∧
      (out.get ⟨k, hk⟩).peak_width = (rs.get ⟨k, hk'⟩).peak_width ∧
      (out.get ⟨k, hk⟩).ionic_intensity = (rs.get ⟨k, hk'⟩).ionic_intensity ∧
      (out.get ⟨k, hk⟩).neutral_intensity = (rs.get ⟨k, hk'⟩).neutral_intensity) ∧
    (∀ k (hk : k < out.length),
      (out.get ⟨k, hk⟩).resolution_vs_previous =
        some (pyRound 2 (2 * |(out.get ⟨k, hk⟩).retention_time -
            ((prev :: out).get ⟨k, Nat.lt_succ_of_lt hk⟩).retention_time| /
          (((prev :: out).get ⟨k, Nat.lt_succ_of_lt hk⟩).peak_width +
            (out.get ⟨k, hk⟩).peak_width)))) := by
  intro rs
  induction rs with
  | nil =>
    intro prev out h
    rw [annotatePairs] at h
    simp only [Except.ok.injEq] at h
    subst h
    refine ⟨rfl, fun k hk => absurd hk (Nat.not_lt_zero k), fun k hk => absurd hk (Nat.not_lt_zero k)⟩
  | cons r rs ih =>
    intro prev out h
    rw [annotatePairs] at h
    cases hv : resolution prev.retention_time prev.peak_width r.retention_time r.peak_width with
    | error e => rw [hv] at h; cases h
    | ok v =>
      simp only [hv] at h
      cases hrest : annotatePairs { r with resolution_vs_previous := some (pyRound 2 v) } rs with
      | error e => rw [hrest] at h; cases h
      | ok rest =>
        rw [hrest] at h
        simp only [Except.ok.injEq] at h
        subst h
        obtain ⟨hden, hveq⟩ := pydiv_ok _ _ _ hv
        obtain ⟨ihlen, ihfields, ihres⟩ := ih _ rest hrest
        refine ⟨by simp [ihlen], ?_, ?_⟩
        · intro k hk hk'
          cases k with
          | zero => exact ⟨rfl, rfl, rfl, rfl, rfl⟩
          | succ k =>
            simpa using ihfields k (by simpa using hk) (by simpa using hk')
        · intro k hk
          cases k with
          | zero => exact congrArg (fun q => some (pyRound 2 q)) hveq
          | succ k =>
            simpa using ihres k (by simpa using hk)

theorem annotate_ok (recs out : List PeakRecord) (h : annotate recs = .ok out) :
    ∃ r rs rest, recs = r :: rs ∧ annotatePairs r rs = .ok rest ∧
      out = { r with resolution_vs_previous := none } :: rest := by
  cases recs with
  | nil => rw [annotate] at h; cases h
  | cons r rs =>
    rw [annotate] at h
    cases hrest : annotatePairs r rs with
    | error e => rw [hrest] at h; cases h
    | ok rest =>
      rw [hrest] at h
      simp only [Except.ok.injEq] at h
      exact ⟨r, rs, rest, rfl, hrest, h.symm⟩

theorem annotate_fields (recs out : List PeakRecord) (h : annotate recs = .ok out) :
    out.length = recs.length ∧
    ∀ k (hk : k < out.length) (hk' : k < recs.length),
      (out.get ⟨k, hk⟩).compound = (recs.get ⟨k, hk'⟩).compound ∧
      (out.get ⟨k, hk⟩).retention_time = (recs.get ⟨k, hk'⟩).retention_time ∧
      (out.get ⟨k, hk⟩).peak_width = (recs.get ⟨k, hk'⟩).peak_width ∧
      (out.get ⟨k, hk⟩).ionic_intensity = (recs.get ⟨k, hk'⟩).ionic_intensity ∧
      (out.get ⟨k, hk⟩).neutral_intensity = (recs.get ⟨k, hk'⟩).neutral_intensity := by
  obtain ⟨r, rs, rest, hrecs, hpairs, hout⟩ := annotate_ok recs out h
  obtain ⟨hlen, hfields, _⟩ := annotatePairs_ok rs r rest hpairs
  subst hrecs
  subst hout
  refine ⟨by simp [hlen], ?_⟩
  intro k hk hk'
  cases k with
  | zero => exact ⟨rfl, rfl, rfl, rfl, rfl⟩
  | succ k =>
    simpa using hfields k (by simpa using hk) (by simpa using hk')

theorem simulate_ok (p : Params) (names : List String) (bps ions : List ℚ) (res : SimResult)
    (h : simulate p names bps ions = .ok res) :
    (names.length = bps.length ∧ bps.length = ions.length) ∧
    ∃ pcs, simLoop p 0 (buildCompounds names bps ions) = .ok pcs ∧
      annotate (pcs.map buildRecord) = .ok res.peaks ∧
      res.ionic = (fun k => channelIon pcs (tAxis k)) ∧
      res.neutral = (fun k => channelNeutral pcs (tAxis k)) := by
  unfold simulate at h
  by_cases hcond : names.length = bps.length ∧ bps.length = ions.length
  · rw [if_pos hcond] at h
    cases hloop : simLoop p 0 (buildCompounds names bps ions) with
    | error e => rw [hloop] at h; cases h
    | ok pcs =>
      simp only [hloop] at h
      cases hann : annotate (pcs.map buildRecord) with
      | error e => rw [hann] at h; cases h
      | ok recs =>
        simp only [hann, Except.ok.injEq] at h
        subst h
        exact ⟨hcond, pcs, rfl, by rw [hann], rfl, rfl⟩
  · rw [if_neg hcond] at h
    cases h

theorem runPeaks_ok (p : Params) (names : List String) (bps ions : List ℚ)
    (recs : List PeakRecord) (h : runPeaks p names bps ions = .ok recs) :
    ∃ res, simulate p names bps ions = .ok res ∧ res.peaks = recs := by
  unfold runPeaks at h
  cases hs : simulate p names bps ions with
  | error e => rw [hs] at h; cases h
  | ok res =>
    rw [hs] at h
    simp only [Except.map] at h
    simp only [Except.ok.injEq] at h
    exact ⟨res, rfl, h⟩

theorem buildCompounds_length :
    ∀ (ns : List String) (bs es : List ℚ), ns.length = bs.length → bs.length = es.length →
    (buildCompounds ns bs es).length = ns.length := by
  intro ns
  induction ns with
  | nil =>
    intro bs es h1 h2
    cases bs with
    | nil => rfl
    | cons b bs => cases h1
  | cons n ns ih =>
    intro bs es h1 h2
    cases bs with
    | nil => cases h1
    | cons b bs =>
      cases es with
      | nil => cases h2
      | cons e es =>
        simp only [buildCompounds, List.length_cons]
        rw [ih bs es (by simpa using h1) (by simpa using h2)]

theorem buildCompounds_get_name :
    ∀ (ns : List String) (bs es : List ℚ), ns.length = bs.length → bs.length = es.length →
    ∀ (k : ℕ) (hk : k < (buildCompounds ns bs es).length) (hk' : k < ns.length),
    ((buildCompounds ns bs es).get ⟨k, hk⟩).name = ns.get ⟨k, hk'⟩ := by
  intro ns
  induction ns with
  | nil => intro bs es h1 h2 k hk hk'; exact absurd hk' (Nat.not_lt_zero k)
  | cons n ns ih =>
    intro bs es h1 h2 k hk hk'
    cases bs with
    | nil => cases h1
    | cons b bs =>
      cases es with
      | nil => cases h2
      | cons e es =>
        cases k with
        | zero => rfl
        | succ k =>
          exact ih bs es (by simpa using h1) (by simpa using h2) k
            (Nat.lt_of_succ_lt_succ hk) (Nat.lt_of_succ_lt_succ hk')

theorem compute_peak_prep (ch : SystemChoice) (a1 b1 a2 b2 T r : ℚ) (i : ℕ) (c : Compound) :
    compute_peak ⟨ch, a1, b1, T, r⟩ i c = compute_peak ⟨ch, a2, b2, T, r⟩ i c := rfl

theorem simLoop_prep (ch : SystemChoice) (a1 b1 a2 b2 T r : ℚ) :
    ∀ (cs : List Compound) (i : ℕ),
    simLoop ⟨ch, a1, b1, T, r⟩ i cs = simLoop ⟨ch, a2, b2, T, r⟩ i cs := by
  intro cs
  induction cs with
  | nil => intro i; rfl
  | cons c cs ih =>
    intro i
    rw [simLoop, simLoop, compute_peak_prep ch a1 b1 a2 b2 T r i c, ih (i + 1)]

theorem simulate_prep (ch : SystemChoice) (a1 b1 a2 b2 T r : ℚ)
    (names : List String) (bps ions : List ℚ) :
    simulate ⟨ch, a1, b1, T, r⟩ names bps ions = simulate ⟨ch, a2, b2, T, r⟩ names bps ions := by
  unfold simulate
  rw [simLoop_prep ch a1 b1 a2 b2 T r]

/-! ## Concrete evaluations of the default run -/

theorem defaultLoop_eval :
    simLoop pTrad5 0 (buildCompounds defaultNames defaultBps defaultIons) = .ok defaultCalcs := by
  norm_num [simLoop, buildCompounds, compute_peak, pydiv, pTrad5, defaultNames, defaultBps,
    defaultIons, defaultCalcs]

theorem defaultMap_eval : defaultCalcs.map buildRecord = defaultRecords0 := by
  have hA : pyRound 2 ((64 : ℚ)/25) = 64/25 := by
    rw [pyRound_low 2 _ 256 (by norm_num) (by norm_num)]; norm_num
  have hB : pyRound 3 ((151 : ℚ)/500) = 151/500 := by
    rw [pyRound_low 3 _ 302 (by norm_num) (by norm_num)]; norm_num
  have hC : pyRound 3 ((7 : ℚ)/10) = 7/10 := by
    rw [pyRound_low 3 _ 700 (by norm_num) (by norm_num)]; norm_num
  have hE : pyRound 2 ((93 : ℚ)/20) = 93/20 := by
    rw [pyRound_low 2 _ 465 (by norm_num) (by norm_num)]; norm_num
  have hF : pyRound 3 ((8 : ℚ)/25) = 8/25 := by
    rw [pyRound_low 3 _ 320 (by norm_num) (by norm_num)]; norm_num
  have hG : pyRound 3 ((3 : ℚ)/5) = 3/5 := by
    rw [pyRound_low 3 _ 600 (by norm_num) (by norm_num)]; norm_num
  have hH : pyRound 2 ((339 : ℚ)/50) = 339/50 := by
    rw [pyRound_low 2 _ 678 (by norm_num) (by norm_num)]; norm_num
  have hI : pyRound 3 ((173 : ℚ)/500) = 173/500 := by
    rw [pyRound_low 3 _ 346 (by norm_num) (by norm_num)]; norm_num
  have hJ : pyRound 3 ((13 : ℚ)/20) = 13/20 := by
    rw [pyRound_low 3 _ 650 (by norm_num) (by norm_num)]; norm_num
  simp [buildRecord, defaultCalcs, defaultRecords0, pyRound_zero,
    hA, hB, hC, hE, hF, hG, hH, hI, hJ]

theorem defaultAnnotate_eval : annotate defaultRecords0 = .ok defaultRecords := by
  have hres1 : pyRound 2 ((2090 : ℚ)/311) = 168/25 := by
    rw [pyRound_low 2 _ 672 (by norm_num) (by norm_num)]; norm_num
  have hres2 : pyRound 2 ((710 : ℚ)/111) = 32/5 := by
    rw [pyRound_high 2 _ 639 (by norm_num) (by norm_num)]; norm_num
  norm_num [annotate, annotatePairs, resolution, pydiv, defaultRecords0, defaultRecords,
    hres1, hres2, abs]

theorem defaultRun_eval :
    runPeaks pTrad5 defaultNames defaultBps defaultIons = .ok defaultRecords := by
  unfold runPeaks simulate
  rw [defaultLoop_eval]
  simp only [defaultMap_eval, defaultAnnotate_eval]
  simp [defaultNames, defaultBps, defaultIons, Except.map]

theorem acetoneCalc250_eval :
    compute_peak pInteg250 0 ⟨"Acetone", 56, 7/10⟩ = .ok acetoneCalc250 := by
  norm_num [compute_peak, pydiv, hot_factor, pInteg250, acetoneCalc250]

/-! ## Claims -/

/-- C5: whenever the three parsed input lists do not all have equal length,
the run fails with the validation error before any synthesis, and no signal
or peak table is produced. -/
theorem c5_mismatched_lengths_fail (p : Params) (names : List String) (bps ions : List ℚ)
    (h : ¬(names.length = bps.length ∧ bps.length = ions.length)) :
    simulate p names bps ions = .error .validationError := by
  unfold simulate
  rw [if_neg h]

theorem c5_witness :
    simulate pTrad5 ["Acetone", "Methanol", "Ethanol"] [56, 65] [7/10, 3/5, 13/20]
      = .error .validationError :=
  c5_mismatched_lengths_fail pTrad5 _ _ _ (by norm_num)

/-- C6: contrary to the claim, the empty input does not succeed: the
simulation loop leaves an empty table, and the unconditional
`peak_table[0]["Resolution vs Previous"] = None` assignment at line 146 then
raises an uncontrolled `IndexError`, in either mode and for any parameters. -/
theorem c6_empty_input_index_fault :
    simulate pTrad5 ([] : List String) ([] : List ℚ) ([] : List ℚ) = .error .indexError ∧
    ∀ p : Params, simulate p ([] : List String) ([] : List ℚ) ([] : List ℚ) = .error .indexError :=
  ⟨rfl, fun _ => rfl⟩

/-- C4: contrary to the claim, no `DegenerateParameterError` exists: each
zero denominator surfaces as Python's uncontrolled `ZeroDivisionError` —
`column_heating_rate = 0` in the base-width formula, `hot_factor = 0` (at
hot-channel temperature −254 °C, rate 5) in the enhanced width division, and
a zero rounded-width sum (boiling points −95) in the resolution formula. -/
theorem c4_zero_denominators_uncontrolled :
    simulate ⟨.traditional, 150, 101.3, 250, 0⟩ ["Acetone"] [56] [7/10]
      = .error .zeroDivisionError ∧
    simulate ⟨.integrated, 150, 101.3, -254, 5⟩ ["Acetone"] [56] [7/10]
      = .error .zeroDivisionError ∧
    simulate pTrad5 ["A", "B"] [-95, -95] [1/2, 1/2] = .error .zeroDivisionError := by
  refine ⟨?_, ?_, ?_⟩
  · norm_num [simulate, simLoop, buildCompounds, compute_peak, pydiv]
  · norm_num [simulate, simLoop, buildCompounds, compute_peak, pydiv, hot_factor]
  · have hD : pyRound 3 (0 : ℚ) = 0 := pyRound_zero 3
    have h105 : pyRound 2 ((21 : ℚ)/20) = 21/20 := by
      rw [pyRound_low 2 _ 105 (by norm_num) (by norm_num)]; norm_num
    have h305 : pyRound 2 ((61 : ℚ)/20) = 61/20 := by
      rw [pyRound_low 2 _ 305 (by norm_num) (by norm_num)]; norm_num
    have hhalf : pyRound 3 ((1 : ℚ)/2) = 1/2 := by
      rw [pyRound_low 3 _ 500 (by norm_num) (by norm_num)]; norm_num
    norm_num [simulate, simLoop, buildCompounds, compute_peak, pydiv, annotate,
      annotatePairs, resolution, buildRecord, pTrad5, hD, h105, h305, hhalf]

/-- C8: the two prep-oven parameters are captured but never influence the
run: two enhanced-mode runs differing only in them produce identical
channels and peak tables. -/
theorem c8_prep_oven_inert (a1 b1 a2 b2 T r : ℚ) (names : List String) (bps ions : List ℚ) :
    simulate ⟨.integrated, a1, b1, T, r⟩ names bps ions
      = simulate ⟨.integrated, a2, b2, T, r⟩ names bps ions :=
  simulate_prep .integrated a1 b1 a2 b2 T r names bps ions

/-- C2: the enhanced-mode scaling: `hot_factor` as specified, every
successfully computed peak has width `base/hot_factor`, ionic intensity
`ion*hot_factor`, neutral intensity `(1-ion)*hot_factor`; at hot-channel
temperature 250 and rate 5 the factor is 1.26 and the Acetone peak has width
0.302/1.26, ionic intensity 0.882, neutral intensity 0.378. -/
theorem c2_enhanced_mode_formulas :
    (∀ p : Params,
      hot_factor p = 1 + (p.hot_channel_temp - 150) / 400 + (p.column_rate / 50) * 0.1) ∧
    (∀ (p : Params) (i : ℕ) (c : Compound) (pc : PeakCalc),
      p.choice = .integrated → compute_peak p i c = .ok pc →
      pc.width_column = (0.15 + c.boiling_point / 500 + (10 / p.column_rate) * 0.02)
          / hot_factor p ∧
      pc.intensity_ion = c.ion_eff * hot_factor p ∧
      pc.intensity_neutral = (1 - c.ion_eff) * hot_factor p) ∧
    hot_factor pInteg250 = 1.26 ∧
    compute_peak pInteg250 0 acetone
      = .ok ⟨"Acetone", 64/25, (0.302 : ℚ) / 1.26, 0.882, 0.378⟩ := by
  refine ⟨fun p => rfl, ?_, by norm_num [hot_factor, pInteg250], ?_⟩
  · intro p i c pc hc h
    obtain ⟨_, _, _, _, hint⟩ := compute_peak_ok p i c pc h
    obtain ⟨_, hw, hii, hin⟩ := hint hc
    exact ⟨hw, hii, hin⟩
  · rw [show acetone = ⟨"Acetone", 56, 7/10⟩ from rfl, acetoneCalc250_eval]
    norm_num [acetoneCalc250]

theorem c2_witness :
    acetoneCalc250.width_column
        = (0.15 + (56 : ℚ) / 500 + (10 / pInteg250.column_rate) * 0.02) / hot_factor pInteg250 ∧
    acetoneCalc250.intensity_ion = (7/10 : ℚ) * hot_factor pInteg250 ∧
    acetoneCalc250.intensity_neutral = (1 - (7/10 : ℚ)) * hot_factor pInteg250 :=
  c2_enhanced_mode_formulas.2.1 pInteg250 0 acetone acetoneCalc250 rfl
    (by rw [show acetone = ⟨"Acetone", 56, 7/10⟩ from rfl]; exact acetoneCalc250_eval)

theorem gaussAt_zero_intensity (c w : ℚ) (t : ℝ) : gaussAt 0 c w t = 0 := by
  simp [gaussAt]

theorem channelIon_map_sum (pcs : List PeakCalc) (t : ℝ) :
    channelIon pcs t
      = (pcs.map fun pc => gaussAt pc.intensity_ion pc.center pc.width_column t).sum := by
  unfold channelIon
  rw [foldl_add_shift, zero_add]

theorem channelNeutral_map_sum (pcs : List PeakCalc) (t : ℝ) :
    channelNeutral pcs t
      = (pcs.map fun pc => gaussAt pc.intensity_neutral pc.center pc.width_column t).sum := by
  unfold channelNeutral
  rw [foldl_add_shift, zero_add]

/-- C7: in plain (traditional) mode every peak's neutral intensity is zero —
unrounded, in the channel, and in the rounded table rows — and in enhanced
(integrated) mode the unrounded ionic and neutral intensities of every peak
sum to `hot_factor`. -/
theorem c7_neutral_zero_and_intensity_sum :
    (∀ (p : Params) (cs : List Compound) (pcs : List PeakCalc),
      p.choice = .traditional → simLoop p 0 cs = .ok pcs →
      (∀ pc ∈ pcs, pc.intensity_neutral = 0) ∧
      (∀ t : ℝ, channelNeutral pcs t = 0) ∧
      (∀ rec ∈ pcs.map buildRecord, rec.neutral_intensity = 0)) ∧
    (∀ (p : Params) (i : ℕ) (c : Compound) (pc : PeakCalc),
      p.choice = .integrated → compute_peak p i c = .ok pc →
      pc.intensity_ion + pc.intensity_neutral = hot_factor p) := by
  constructor
  · intro p cs pcs hc h
    obtain ⟨hlen, hget⟩ := simLoop_ok p cs 0 pcs h
    have hmem : ∀ pc ∈ pcs, pc.intensity_neutral = 0 := by
      intro pc hpc
      obtain ⟨idx, hidx⟩ := List.mem_iff_get.mp hpc
      have hk : (idx : ℕ) < cs.length := by
        rw [← hlen]
        exact idx.isLt
      have := compute_peak_ok p (0 + idx) (cs.get ⟨idx, hk⟩) (pcs.get idx)
        (hget idx hk idx.isLt)
      rw [← hidx]
      exact (this.2.2.2.1 hc).2.2
    refine ⟨hmem, ?_, ?_⟩
    · intro t
      rw [channelNeutral_eq_sum]
      apply Finset.sum_eq_zero
      intro i _
      rw [hmem (pcs.get i) (pcs.get_mem i.1 i.isLt), gaussAt_zero_intensity]
    · intro rec hrec
      obtain ⟨pc, hpc, hbr⟩ := List.mem_map.mp hrec
      rw [← hbr]
      show pyRound 3 pc.intensity_neutral = 0
      rw [hmem pc hpc, pyRound_zero]
  · intro p i c pc hc h
    obtain ⟨_, _, _, _, hint⟩ := compute_peak_ok p i c pc h
    obtain ⟨_, _, hii, hin⟩ := hint hc
    rw [hii, hin]
    ring

theorem c7_witness :
    acetoneCalcPlain.intensity_neutral = 0 ∧
    channelNeutral defaultCalcs 3 = 0 ∧
    acetoneCalc250.intensity_ion + acetoneCalc250.intensity_neutral = hot_factor pInteg250 := by
  obtain ⟨h1, h2, _⟩ := c7_neutral_zero_and_intensity_sum.1 pTrad5 _ defaultCalcs rfl
    defaultLoop_eval
  refine ⟨?_, h2 3, ?_⟩
  · exact h1 acetoneCalcPlain (by rw [show acetoneCalcPlain
      = ⟨"Acetone", 64/25, 151/500, 7/10, 0⟩ from rfl]; simp [defaultCalcs])
  · exact c7_neutral_zero_and_intensity_sum.2 pInteg250 0 acetone acetoneCalc250 rfl
      (by rw [show acetone = ⟨"Acetone", 56, 7/10⟩ from rfl]; exact acetoneCalc250_eval)

/-- C10: the Gaussian contribution depends on the computed width only
through its square: negating every width (or taking its absolute value)
leaves both channels unchanged, and a negative width is reachable (boiling
point −500 in plain mode gives width −0.81) without any error. -/
theorem c10_width_sign_invariance :
    (∀ (I c w : ℚ) (t : ℝ),
      gaussAt I c (-w) t = gaussAt I c w t ∧ gaussAt I c |w| t = gaussAt I c w t) ∧
    (∀ (pcs : List PeakCalc) (t : ℝ),
      channelIon (pcs.map fun pc => { pc with width_column := -pc.width_column }) t
        = channelIon pcs t ∧
      channelNeutral (pcs.map fun pc => { pc with width_column := -pc.width_column }) t
        = channelNeutral pcs t) ∧
    compute_peak pTrad5 0 ⟨"X", -500, 1/2⟩ = .ok ⟨"X", -3, -81/100, 1/2, 0⟩ ∧
    ((-81 : ℚ)/100 < 0) := by
  have hneg : ∀ (I c w : ℚ) (t : ℝ), gaussAt I c (-w) t = gaussAt I c w t := by
    intro I c w t
    simp only [gaussAt, Rat.cast_neg, neg_sq]
  refine ⟨fun I c w t => ⟨hneg I c w t, ?_⟩, ?_, ?_, by norm_num⟩
  · simp only [gaussAt, Rat.cast_abs, sq_abs]
  · intro pcs t
    constructor
    · rw [channelIon_map_sum, channelIon_map_sum, List.map_map]
      congr 1
      induction pcs with
      | nil => rfl
      | cons x xs ih =>
        simp only [List.map_cons, Function.comp, ih]
        rw [hneg]
    · rw [channelNeutral_map_sum, channelNeutral_map_sum, List.map_map]
      congr 1
      induction pcs with
      | nil => rfl
      | cons x xs ih =>
        simp only [List.map_cons, Function.comp, ih]
        rw [hneg]
  · norm_num [compute_peak, pydiv, pTrad5]

/-- C3: in every successful run each record after the first carries
`resolution_vs_previous = round(2*|t_i - t_prev| / (w_prev + w_i), 2)`,
computed from the already-rounded retention times and widths of the adjacent
table rows, and the first record's `resolution_vs_previous` is `none`. -/
theorem c3_resolution_vs_previous (p : Params) (names : List String) (bps ions : List ℚ)
    (recs : List PeakRecord) (h : runPeaks p names bps ions = .ok recs) :
    (∀ h0 : 0 < recs.length, (recs.get ⟨0, h0⟩).resolution_vs_previous = none) ∧
    (∀ (i : ℕ) (hi : i + 1 < recs.length),
      (recs.get ⟨i + 1, hi⟩).resolution_vs_previous =
        some (pyRound 2 (2 * |(recs.get ⟨i + 1, hi⟩).retention_time -
            (recs.get ⟨i, Nat.lt_of_succ_lt hi⟩).retention_time| /
          ((recs.get ⟨i, Nat.lt_of_succ_lt hi⟩).peak_width +
            (recs.get ⟨i + 1, hi⟩).peak_width)))) := by
  obtain ⟨res, hsim, hpeaks⟩ := runPeaks_ok p names bps ions recs h
  obtain ⟨_, pcs, _, hann, _, _⟩ := simulate_ok p names bps ions res hsim
  rw [hpeaks] at hann
  obtain ⟨r, rs, rest, hrecs0, hpairs, hout⟩ := annotate_ok _ _ hann
  obtain ⟨hplen, hpfields, hpres⟩ := annotatePairs_ok rs r rest hpairs
  subst hout
  constructor
  · intro h0
    rfl
  · intro i hi
    have hi' : i < rest.length := by simpa using hi
    have hres := hpres i hi'
    cases i with
    | zero => simpa using hres
    | succ i => simpa using hres

theorem c3_witness :
    runPeaks pTrad5 defaultNames defaultBps defaultIons = .ok defaultRecords ∧
    (defaultRecords.get ⟨0, by norm_num [defaultRecords]⟩).resolution_vs_previous = none ∧
    (defaultRecords.get ⟨1, by norm_num [defaultRecords]⟩).resolution_vs_previous
      = some (pyRound 2 (2 * |(defaultRecords.get ⟨1, by norm_num [defaultRecords]⟩).retention_time
          - (defaultRecords.get ⟨0, by norm_num [defaultRecords]⟩).retention_time| /
        ((defaultRecords.get ⟨0, by norm_num [defaultRecords]⟩).peak_width
          + (defaultRecords.get ⟨1, by norm_num [defaultRecords]⟩).peak_width))) := by
  have h := c3_resolution_vs_previous pTrad5 defaultNames defaultBps defaultIons defaultRecords
    defaultRun_eval
  exact ⟨defaultRun_eval, h.1 (by norm_num [defaultRecords]), h.2 0 (by norm_num [defaultRecords])⟩

/-- C9: every successful run yields exactly one record per compound, in
input order: the peak list has the length of the input lists and the k-th
record carries the k-th compound's name. -/
theorem c9_order_preservation (p : Params) (names : List String) (bps ions : List ℚ)
    (recs : List PeakRecord) (h : runPeaks p names bps ions = .ok recs) :
    recs.length = names.length ∧
    recs.length = (buildCompounds names bps ions).length ∧
    (∀ (k : ℕ) (hk : k < recs.length) (hk' : k < (buildCompounds names bps ions).length),
      (recs.get ⟨k, hk⟩).compound = ((buildCompounds names bps ions).get ⟨k, hk'⟩).name) ∧
    (∀ (k : ℕ) (hk : k < recs.length) (hk' : k < names.length),
      (recs.get ⟨k, hk⟩).compound = names.get ⟨k, hk'⟩) := by
  obtain ⟨res, hsim, hpeaks⟩ := runPeaks_ok p names bps ions recs h
  obtain ⟨⟨hnb, hbi⟩, pcs, hloop, hann, _, _⟩ := simulate_ok p names bps ions res hsim
  rw [hpeaks] at hann
  obtain ⟨halen, hafields⟩ := annotate_fields _ _ hann
  obtain ⟨hslen, hsget⟩ := simLoop_ok p _ 0 pcs hloop
  have hclen : (buildCompounds names bps ions).length = names.length :=
    buildCompounds_length names bps ions hnb hbi
  have hrlen : recs.length = (buildCompounds names bps ions).length := by
    rw [halen, List.length_map, hslen]
  have hname : ∀ (k : ℕ) (hk : k < recs.length)
      (hk' : k < (buildCompounds names bps ions).length),
      (recs.get ⟨k, hk⟩).compound = ((buildCompounds names bps ions).get ⟨k, hk'⟩).name := by
    intro k hk hk'
    have hkm : k < (pcs.map buildRecord).length := by
      rw [List.length_map, hslen]
      exact hk'
    have hkp : k < pcs.length := by
      rw [hslen]
      exact hk'
    have h1 := (hafields k hk hkm).1
    rw [h1, List.get_map]
    show (pcs.get ⟨k, hkp⟩).name = _
    have := compute_peak_ok p (0 + k) ((buildCompounds names bps ions).get ⟨k, hk'⟩)
      (pcs.get ⟨k, hkp⟩) (hsget k hk' hkp)
    exact this.2.1
  refine ⟨by rw [hrlen, hclen], hrlen, hname, ?_⟩
  intro k hk hk'
  rw [hname k hk (by rw [hclen]; exact hk')]
  exact buildCompounds_get_name names bps ions hnb hbi k _ hk'

theorem c9_witness :
    defaultRecords.length = defaultNames.length ∧
    (defaultRecords.get ⟨0, by norm_num [defaultRecords]⟩).compound = "Acetone" ∧
    (defaultRecords.get ⟨2, by norm_num [defaultRecords]⟩).compound = "Ethanol" := by
  have h := c9_order_preservation pTrad5 defaultNames defaultBps defaultIons defaultRecords
    defaultRun_eval
  refine ⟨h.1, ?_, ?_⟩
  · rw [h.2.2.2 0 (by norm_num [defaultRecords]) (by norm_num [defaultNames])]
    rfl
  · rw [h.2.2.2 2 (by norm_num [defaultRecords]) (by norm_num [defaultNames])]
    rfl

/-- C1: each output channel is the pure index-wise superposition, over all
compounds, of `intensity * exp(-(t - center_i)^2 / (2 * width_i^2))` at every
sample of the time axis, with `center_i = 2 + 2*i + bp_i/100`, base width
`0.15 + bp_i/500 + (10/column_heating_rate)*0.02` (divided by `hot_factor` in
enhanced mode), and no interaction between peaks. -/
theorem c1_superposition (p : Params) (cs : List Compound) (pcs : List PeakCalc)
    (h : simLoop p 0 cs = .ok pcs) (k : Fin numSamples) :
    channelIon pcs (tAxis k) = (∑ i : Fin cs.length,
      ((if p.choice = .integrated then (cs.get i).ion_eff * hot_factor p
        else (cs.get i).ion_eff : ℚ) : ℝ) *
        Real.exp (-((tAxis k - ((2 + 2 * ((i : ℕ) : ℚ) + (cs.get i).boiling_point / 100 : ℚ) : ℝ)) ^ 2) /
          (2 * (((if p.choice = .integrated
            then (0.15 + (cs.get i).boiling_point / 500 + (10 / p.column_rate) * 0.02) / hot_factor p
            else 0.15 + (cs.get i).boiling_point / 500 + (10 / p.column_rate) * 0.02 : ℚ) : ℝ)) ^ 2))) ∧
    channelNeutral pcs (tAxis k) = (∑ i : Fin cs.length,
      ((if p.choice = .integrated then (1 - (cs.get i).ion_eff) * hot_factor p
        else 0 : ℚ) : ℝ) *
        Real.exp (-((tAxis k - ((2 + 2 * ((i : ℕ) : ℚ) + (cs.get i).boiling_point / 100 : ℚ) : ℝ)) ^ 2) /
          (2 * (((if p.choice = .integrated
            then (0.15 + (cs.get i).boiling_point / 500 + (10 / p.column_rate) * 0.02) / hot_factor p
            else 0.15 + (cs.get i).boiling_point / 500 + (10 / p.column_rate) * 0.02 : ℚ) : ℝ)) ^ 2))) := by
  obtain ⟨hlen, hget⟩ := simLoop_ok p cs 0 pcs h
  constructor
  · rw [channelIon_eq_sum, ← Fin.sum_congr' _ hlen]
    apply Finset.sum_congr rfl
    intro i _
    have hk : (i : ℕ) < cs.length := by rw [← hlen]; exact i.isLt
    have hcast : Fin.cast hlen i = ⟨(i : ℕ), hk⟩ := Fin.ext rfl
    rw [hcast]
    obtain ⟨_, _, hcen, htrad, hinteg⟩ :=
      compute_peak_ok p (0 + (i : ℕ)) (cs.get ⟨(i : ℕ), hk⟩) (pcs.get i)
        (hget (i : ℕ) hk i.isLt)
    have hcen' : (pcs.get i).center
        = (2 + 2 * (((i : ℕ) : ℕ) : ℚ) + (cs.get ⟨(i : ℕ), hk⟩).boiling_point / 100) := by
      rw [hcen]; push_cast; ring
    cases hc : p.choice with
    | traditional =>
      obtain ⟨hw, hii, _⟩ := htrad hc
      have hni : ¬(SystemChoice.traditional = SystemChoice.integrated) := by
        intro hcon; cases hcon
      rw [if_neg hni, if_neg hni]
      unfold gaussAt
      rw [hii, hcen', hw]
    | integrated =>
      obtain ⟨_, hw, hii, _⟩ := hinteg hc
      rw [if_pos rfl, if_pos rfl]
      unfold gaussAt
      rw [hii, hcen', hw]
  · rw [channelNeutral_eq_sum, ← Fin.sum_congr' _ hlen]
    apply Finset.sum_congr rfl
    intro i _
    have hk : (i : ℕ) < cs.length := by rw [← hlen]; exact i.isLt
    have hcast : Fin.cast hlen i = ⟨(i : ℕ), hk⟩ := Fin.ext rfl
    rw [hcast]
    obtain ⟨_, _, hcen, htrad, hinteg⟩ :=
      compute_peak_ok p (0 + (i : ℕ)) (cs.get ⟨(i : ℕ), hk⟩) (pcs.get i)
        (hget (i : ℕ) hk i.isLt)
    have hcen' : (pcs.get i).center
        = (2 + 2 * (((i : ℕ) : ℕ) : ℚ) + (cs.get ⟨(i : ℕ), hk⟩).boiling_point / 100) := by
      rw [hcen]; push_cast; ring
    cases hc : p.choice with
    | traditional =>
      obtain ⟨hw, _, hin⟩ := htrad hc
      have hni : ¬(SystemChoice.traditional = SystemChoice.integrated) := by
        intro hcon; cases hcon
      rw [if_neg hni, if_neg hni]
      unfold gaussAt
      rw [hin, hcen', hw]
    | integrated =>
      obtain ⟨_, hw, _, hin⟩ := hinteg hc
      rw [if_pos rfl, if_pos rfl]
      unfold gaussAt
      rw [hin, hcen', hw]

theorem c1_witness :
    simLoop pTrad5 0 [acetone] = .ok [acetoneCalcPlain] ∧
    channelIon [acetoneCalcPlain] (tAxis k0) =
      ((7/10 : ℚ) : ℝ) * Real.exp (-((tAxis k0 - ((64/25 : ℚ) : ℝ)) ^ 2)
        / (2 * ((151/500 : ℚ) : ℝ) ^ 2)) := by
  have hloop : simLoop pTrad5 0 [acetone] = .ok [acetoneCalcPlain] := by
    norm_num [simLoop, compute_peak, pydiv, pTrad5, acetone, acetoneCalcPlain]
  refine ⟨hloop, ?_⟩
  have h := (c1_superposition pTrad5 [acetone] [acetoneCalcPlain] hloop k0).1
  rw [h]
  refine Eq.trans (Fin.sum_univ_one _) ?_
  have hni : ¬(pTrad5.choice = SystemChoice.integrated) := by
    intro hcon; cases hcon
  rw [if_neg hni, if_neg hni]
  norm_num [acetone, pTrad5]

end SimApp
